import Mathlib

/-!
Verification of the PerfumeShop cache/synchronization subsystem.

This file is a shallow embedding of the in-memory caches of
`app/database/cache.py` (`PrivacyCache`, `CatalogCache`, `CartCache`),
of the row parser and synchronization passes of `app/database/requests.py`
(`_parse_item_row`, `sync_privacy_cache`, `get_all_items_from_gsheets`),
and of the order-step fallback of `app/keyboards.py`.

Modelling conventions:
* Python `set[int]` becomes `Finset ℤ`; Python floats used for money,
  quantities and timestamps become `ℚ` (the values handled by the claims
  are exact decimals).
* `time.time()` is passed explicitly as a `now : ℚ` argument to every
  operation that reads the clock.
* Python's opaque `hash(frozenset(users))` stored in `_last_sync_hash` is
  modelled by the frozen set itself: the program never inspects the hash
  value, it only overwrites it, so any injective stand-in preserves which
  fields each operation writes.
* Mutating methods become state-passing functions `args → State → State`;
  methods that both return a value and mutate (the `defaultdict` reads of
  `CartCache`) return a pair `value × State`.
-/

/-! ### PrivacyCache (app/database/cache.py lines 9-62) -/

/-- State of `PrivacyCache`: `_accepted_users`, `_initialized`,
`_last_update`, `_update_interval` (300 seconds), `_last_sync_hash`. -/
structure PrivacyCache where
  accepted : Finset ℤ
  initialized : Bool
  lastUpdate : ℚ
  updateInterval : ℚ
  lastSyncHash : Finset ℤ
deriving DecidableEq

/-- `PrivacyCache.__init__`: empty set, uninitialized, interval 300 s. -/
def PrivacyCache.new : PrivacyCache :=
  { accepted := ∅, initialized := false, lastUpdate := 0,
    updateInterval := 300, lastSyncHash := ∅ }

/-- `PrivacyCache.initCache(accepted_users)` at clock time `now`. -/
def PrivacyCache.initCache (s : Finset ℤ) (now : ℚ) (c : PrivacyCache) :
    PrivacyCache :=
  { c with accepted := s, initialized := true, lastUpdate := now,
           lastSyncHash := s }

/-- `PrivacyCache.needs_update()` at clock time `now`. -/
def PrivacyCache.needsUpdate (now : ℚ) (c : PrivacyCache) : Bool :=
  !c.initialized || decide (now - c.lastUpdate > c.updateInterval)

/-- `PrivacyCache.is_accepted(user_id)`. -/
def PrivacyCache.isAccepted (u : ℤ) (c : PrivacyCache) : Bool :=
  decide (u ∈ c.accepted)

/-- `PrivacyCache.add_user(user_id)`: adds to the set and refreshes the
sync hash; `_last_update` and `_initialized` are not touched. -/
def PrivacyCache.addUser (u : ℤ) (c : PrivacyCache) : PrivacyCache :=
  { c with accepted := insert u c.accepted,
           lastSyncHash := insert u c.accepted }

/-- `PrivacyCache.remove_user(user_id)` (`set.discard`). -/
def PrivacyCache.removeUser (u : ℤ) (c : PrivacyCache) : PrivacyCache :=
  { c with accepted := c.accepted.erase u,
           lastSyncHash := c.accepted.erase u }

/-- `PrivacyCache.get_all_accepted_users()` (returns a copy). -/
def PrivacyCache.getAllAcceptedUsers (c : PrivacyCache) : Finset ℤ :=
  c.accepted

/-- `PrivacyCache.update_partial(new_users, removed_users)`:
`set.update(new_users)` then `set.difference_update(removed_users)`,
then re-hash and stamp `_last_update`. -/
def PrivacyCache.updatePartial (newUsers removedUsers : Finset ℤ)
    (now : ℚ) (c : PrivacyCache) : PrivacyCache :=
  { c with accepted := (c.accepted ∪ newUsers) \ removedUsers,
           lastSyncHash := (c.accepted ∪ newUsers) \ removedUsers,
           lastUpdate := now }

/-- `sync_privacy_cache` (app/database/requests.py lines 186-212), with the
fetched accepted-user set `current` passed in place of the
`get_all_users()` round trip. On the uninitialized branch the function
returns right after `initialize`; otherwise it computes both set
differences, applies `update_partial` when either is non-empty, and in
all initialized branches finally re-stamps `_last_update` (line 210). -/
def syncPrivacyCache (current : Finset ℤ) (now : ℚ) (c : PrivacyCache) :
    PrivacyCache :=
  if c.initialized = false then PrivacyCache.initCache current now c
  else if current \ c.accepted ≠ ∅ ∨ c.accepted \ current ≠ ∅ then
    { PrivacyCache.updatePartial (current \ c.accepted)
        (c.accepted \ current) now c
      with lastUpdate := now }
  else { c with lastUpdate := now }

/-! ### CartCache (app/database/cache.py lines 163-200) -/

/-- State of `CartCache`: the `defaultdict(dict)` mapping
`user_id -> {item_id -> quantity}`. `none` means the user key is absent
from the outer dict; `some d` is a present (possibly empty) inner dict. -/
structure CartCache where
  carts : ℤ → Option (String → Option ℚ)

/-- `CartCache.__init__`: empty outer dict. -/
def CartCache.new : CartCache := ⟨fun _ => none⟩

/-- `self._carts[user_id]` on the `defaultdict`: returns the user's dict
and, when the key is absent, inserts a fresh empty dict for it. -/
def CartCache.getUserCart (c : CartCache) (u : ℤ) :
    (String → Option ℚ) × CartCache :=
  match c.carts u with
  | some d => (d, c)
  | none =>
      (fun _ => none,
       ⟨fun v => if v = u then some (fun _ => none) else c.carts v⟩)

/-- `CartCache.remove_from_cart(user_id, item_id)`: the membership test
`item_id in self._carts[user_id]` first materializes the user's dict;
the entry is deleted only if present. -/
def CartCache.removeFromCart (u : ℤ) (i : String) (c : CartCache) :
    CartCache :=
  if (((c.getUserCart u).1) i).isSome then
    ⟨fun v => if v = u then
        some (fun j => if j = i then none else ((c.getUserCart u).1) j)
      else (c.getUserCart u).2.carts v⟩
  else (c.getUserCart u).2

/-- `CartCache.add_to_cart(user_id, item_id, quantity)`: `quantity <= 0`
delegates to `remove_from_cart`; otherwise the absolute quantity is
stored. -/
def CartCache.addToCart (u : ℤ) (i : String) (q : ℚ) (c : CartCache) :
    CartCache :=
  if q ≤ 0 then CartCache.removeFromCart u i c
  else
    ⟨fun v => if v = u then
        some (fun j => if j = i then some q else ((c.getUserCart u).1) j)
      else (c.getUserCart u).2.carts v⟩

/-- `CartCache.get_cart(user_id)`: returns `self._carts[user_id]`
(materializing the entry for an unknown user). -/
def CartCache.getCart (u : ℤ) (c : CartCache) :
    (String → Option ℚ) × CartCache :=
  c.getUserCart u

/-- `CartCache.clear_cart(user_id)`: `self._carts[user_id].clear()`. -/
def CartCache.clearCart (u : ℤ) (c : CartCache) : CartCache :=
  ⟨fun v => if v = u then some (fun _ => none)
            else (c.getUserCart u).2.carts v⟩

/-- `CartCache.get_item_quantity(user_id, item_id)`:
`self._carts[user_id].get(item_id, 0)`. -/
def CartCache.getItemQuantity (u : ℤ) (i : String) (c : CartCache) :
    ℚ × CartCache :=
  ((((c.getUserCart u).1) i).getD 0, (c.getUserCart u).2)

/-- A sequence of `add_to_cart` calls applied in order. -/
def applyAddOps (ops : List (ℤ × String × ℚ)) (c : CartCache) : CartCache :=
  ops.foldl (fun s t => CartCache.addToCart t.1 t.2.1 t.2.2 s) c

/-! ### Python string/number primitives used by `_parse_item_row` -/

/-- `str(cell)` for a spreadsheet cell already modelled as an optional
string: `str` of a present value is the value, `str(None)` is the text
`"None"`. -/
def pyStr (o : Option String) : String := o.getD "None"

/-- `str.lower()`. `Char.toLower` lowercases the ASCII range; the unit
labels the program compares (`"мл"`, `"шт"`) are already lowercase, so
the comparison results coincide with Python's on the modelled inputs. -/
def pyLower (s : String) : String := ⟨s.data.map Char.toLower⟩

/-- ASCII whitespace, for `str.strip()`. -/
def isSpaceChar (c : Char) : Bool :=
  c == ' ' || c == '\t' || c == '\n' || c == '\r'

/-- `str.strip()`: drop whitespace from both ends. -/
def pyTrim (s : String) : String :=
  ⟨((s.data.dropWhile isSpaceChar).reverse.dropWhile isSpaceChar).reverse⟩

/-- `str.replace(" ", "")`: every space removed. -/
def removeSpaces (s : String) : String :=
  ⟨s.data.filter (fun c => c != ' ')⟩

/-- `str.replace(",", ".")`: every comma becomes a dot. -/
def commaToDot (s : String) : String :=
  ⟨s.data.map (fun c => if c = ',' then '.' else c)⟩

/-- `str.split(sep)` for a one-character separator; splitting the empty
string gives `[""]`, as in Python. -/
def splitOnChar (sep : Char) : List Char → List (List Char)
  | [] => [[]]
  | c :: cs =>
      if c = sep then [] :: splitOnChar sep cs
      else
        match splitOnChar sep cs with
        | [] => [[c]]
        | t :: ts => (c :: t) :: ts

/-- `str.split(sep)` on strings. -/
def pySplit (s : String) (sep : Char) : List String :=
  (splitOnChar sep s.data).map (fun l => ⟨l⟩)

/-- Value of a digit string. -/
def digitsVal (cs : List Char) : ℕ :=
  cs.foldl (fun a c => 10 * a + (c.toNat - 48)) 0

/-- Python `float(s)` on plain decimal literals: optional surrounding
whitespace, optional sign, digits with at most one decimal point
(`"12"`, `"12.5"`, `".5"`, `"5."`). Anything else — in particular the
unparseable tokens the claims exercise — is a `ValueError`, modelled as
`none`. Exponent and special forms are outside the fragment the
program's data uses. -/
def pyFloat (s : String) : Option ℚ :=
  let t := (pyTrim s).data
  let neg : Bool := match t with
    | '-' :: _ => true
    | _ => false
  let body : List Char := match t with
    | '-' :: r => r
    | '+' :: r => r
    | r => r
  match splitOnChar '.' body with
  | [a] =>
      if !a.isEmpty && a.all Char.isDigit then
        some (if neg then -(digitsVal a : ℚ) else (digitsVal a : ℚ))
      else none
  | [a, b] =>
      if (!a.isEmpty || !b.isEmpty) && a.all Char.isDigit
          && b.all Char.isDigit then
        some (if neg then
            -((digitsVal a : ℚ) + (digitsVal b : ℚ) / (10 : ℚ) ^ b.length)
          else (digitsVal a : ℚ) + (digitsVal b : ℚ) / (10 : ℚ) ^ b.length)
      else none
  | _ => none

/-- Python `int(x)` on a float: truncation toward zero. -/
def pyTrunc (q : ℚ) : ℤ := q.num.tdiv (q.den : ℤ)

/-! ### Configured labels (app/config.py lines 80-87) -/

def ITEM_STATUS_RESERVED : String := "Забронирован"

def ITEM_STATUS_AVAILABLE : String := "Доступен"

def ITEM_STATUS_UNAVAILABLE : String := "Недоступен"

def ITEM_UNIT_PCS : String := "шт"

def ITEM_UNIT_ML : String := "мл"

/-! ### Item rows and `_parse_item_row`
    (app/database/requests.py lines 296-413) -/

/-- The dictionary `_parse_item_row` builds (lines 382-405). Money,
quantities and step values are exact decimals, modelled in `ℚ`; the
`unit` and `status` fields hold the configured label strings, exactly as
in the source. -/
structure Item where
  id : String
  name : String
  image_url : Option String
  category_name : String
  description : String
  price : ℚ
  unit : String
  item_type_z : Option String
  raspil_type_z : Option String
  order_steps : List ℚ
  quantity : ℤ
  status : String
deriving DecidableEq

/-- Insertion into a sorted list, ascending. -/
def insertSorted (x : ℚ) : List ℚ → List ℚ
  | [] => [x]
  | y :: ys => if x ≤ y then x :: y :: ys else y :: insertSorted x ys

/-- Python `sorted` on rationals (insertion sort). -/
def sortAsc (l : List ℚ) : List ℚ := l.foldr insertSorted []

/-- Python `sorted(list(set(l)))`: distinct values in ascending order. -/
def sortedDedup (l : List ℚ) : List ℚ := sortAsc l.dedup

/-- The order-step computation of `_parse_item_row` (lines 333-380),
given the already-resolved unit label and the stripped raw step field.
For `"мл"`: spaces removed, split on commas, blank tokens dropped, each
token parsed as a float with per-token error recovery, nonpositive
values dropped, and a nonempty result deduplicated and sorted — an empty
result stays empty. For `"шт"`: a parseable positive integer gives a
one-element list, anything else (including a blank field) gives `[1]`. -/
def computeOrderSteps (itemUnit rawOrderSteps : String) : List ℚ :=
  if itemUnit = ITEM_UNIT_ML then
    if rawOrderSteps ≠ "" then
      let stepsNoSpace := removeSpaces rawOrderSteps
      let parsedStepStrings :=
        ((pySplit stepsNoSpace ',').map pyTrim).filter (fun s => s != "")
      let vals := parsedStepStrings.filterMap (fun s =>
        match pyFloat (commaToDot s) with
        | some v => if 0 < v then some v else none
        | none => none)
      if vals ≠ [] then sortedDedup vals else vals
    else []
  else
    if rawOrderSteps ≠ "" then
      match pyFloat (commaToDot rawOrderSteps) with
      | some v => if v.den = 1 ∧ 0 < v then [v] else [1]
      | none => [1]
    else [1]

/-- The local `status_val` of `_parse_item_row` (lines 304-318):
strip (defaulting a NULL cell to the available label), then map unknown
labels to the unavailable label. -/
def rowStatusVal (row : List (Option String)) : String :=
  if (match row.getD 11 none with
      | some v => pyTrim v
      | none => ITEM_STATUS_AVAILABLE) = ITEM_STATUS_AVAILABLE
    ∨ (match row.getD 11 none with
      | some v => pyTrim v
      | none => ITEM_STATUS_AVAILABLE) = ITEM_STATUS_RESERVED
    ∨ (match row.getD 11 none with
      | some v => pyTrim v
      | none => ITEM_STATUS_AVAILABLE) = ITEM_STATUS_UNAVAILABLE then
    (match row.getD 11 none with
      | some v => pyTrim v
      | none => ITEM_STATUS_AVAILABLE)
  else ITEM_STATUS_UNAVAILABLE

/-- The local `item_unit` of `_parse_item_row` (lines 320-331): the
stripped, lowercased unit cell; `"мл"` selects the ML label, everything
else (the PCS label, an unrecognized label, or a blank) selects PCS. -/
def rowItemUnit (row : List (Option String)) : String :=
  if (match row.getD 6 none with
      | some v => pyLower (pyTrim v)
      | none => "") = pyLower ITEM_UNIT_ML then ITEM_UNIT_ML
  else if (match row.getD 6 none with
      | some v => pyLower (pyTrim v)
      | none => "") = pyLower ITEM_UNIT_PCS then ITEM_UNIT_PCS
  else ITEM_UNIT_PCS

/-- The local `raw_order_steps_str` of `_parse_item_row` (line 334). -/
def rowRawOrderSteps (row : List (Option String)) : String :=
  match row.getD 9 none with
  | some v => pyTrim v
  | none => ""

/-- The price expression of `_parse_item_row` (lines 390-394):
`none` is the `ValueError` of `float(...)` on a nonempty unparseable
cell; a NULL or blank cell reads as `0.0`. -/
def rowPriceOpt (row : List (Option String)) : Option ℚ :=
  match row.getD 5 none with
  | some v => if pyTrim v ≠ "" then pyFloat (commaToDot v) else some 0
  | none => some 0

/-- The quantity expression of `_parse_item_row` (lines 399-403):
`int(float(...))` with the same error and default behavior as the
price. -/
def rowQtyOpt (row : List (Option String)) : Option ℤ :=
  match row.getD 10 none with
  | some v => if pyTrim v ≠ "" then (pyFloat (commaToDot v)).map pyTrunc
    else some 0
  | none => some 0

/-- `_parse_item_row(row, ...)`. A row is the 12-column tuple of the
items sheet; a cell is `none` for SQL NULL. A tuple with fewer than 12
columns raises `IndexError`, and an unparseable nonempty price or
quantity cell raises `ValueError`; both are caught by the `except`
clause, which returns `None`. Per-token step errors are recovered inside
the step loop and do not fail the row. The logging-only
`item_id_for_log` parameter is dropped. -/
def parseItemRow (row : List (Option String)) : Option Item :=
  if 12 ≤ row.length then
    match rowPriceOpt row, rowQtyOpt row with
    | some p, some q =>
        some { id := pyTrim (pyStr (row.getD 0 none))
             , name := pyTrim (pyStr (row.getD 1 none))
             , image_url := match row.getD 2 none with
                 | some v => if v ≠ "" ∧ pyTrim v ≠ "" then some (pyTrim v)
                   else none
                 | none => none
             , category_name := pyTrim (pyStr (row.getD 3 none))
             , description := pyTrim (pyStr (row.getD 4 none))
             , price := p
             , unit := rowItemUnit row
             , item_type_z := match row.getD 7 none with
                 | some v => if v ≠ "" then some (pyTrim v) else none
                 | none => none
             , raspil_type_z := match row.getD 8 none with
                 | some v => if v ≠ "" then some (pyTrim v) else none
                 | none => none
             , order_steps := computeOrderSteps (rowItemUnit row)
                 (rowRawOrderSteps row)
             , quantity := q
             , status := rowStatusVal row }
    | _, _ => none
  else none

/-- The row loop of `get_all_items_from_gsheets`
(app/database/requests.py lines 519-528): parse each row independently,
append the successes, skip the failures. (`_parse_item_row` returns
either `None` or a nonempty dict, so Python's truthiness test on the
result is a `None` test.) -/
def getAllItemsFromRows (rows : List (List (Option String))) : List Item :=
  rows.foldl (fun items r =>
    match parseItemRow r with
    | some it => items ++ [it]
    | none => items) []

/-- The ML-branch step fallback of `get_item_cart_keyboard`
(app/keyboards.py lines 244-257): a nonempty parsed `order_steps` list is
used (filtered to positive numbers), an empty one is replaced by the
hard-coded default `[1, 2, 3, 5, 10]`. -/
def orderStepsToUse (itemData : Item) : List ℚ :=
  if itemData.order_steps ≠ [] then
    itemData.order_steps.filter (fun s => decide (0 < s))
  else [1, 2, 3, 5, 10]

/-! ### CatalogCache (app/database/cache.py lines 64-161) -/

/-- A category dict `{"id": name, "name": name}` as built by
`get_all_categories_from_gsheets`. -/
structure Category where
  id : String
  name : String
deriving DecidableEq

/-- State of `CatalogCache`. The dicts become functions with the same
read semantics as `.get(...)` misses (`_items_by_category` absent keys
and keys holding `[]` are observationally identical to every modelled
operation). The opaque `_last_sync_hash` (a Python hash of category and
item ids) is not modelled: no operation ever reads it. -/
structure CatalogCache where
  categories : List Category
  itemsByCategory : String → List Item
  itemsById : String → Option Item
  initialized : Bool
  lastUpdate : ℚ

/-- `CatalogCache.__init__`. -/
def CatalogCache.new : CatalogCache :=
  { categories := [], itemsByCategory := fun _ => [],
    itemsById := fun _ => none, initialized := false, lastUpdate := 0 }

/-- All items of an `items_by_category` argument in the iteration order
of `for items in items_by_category.values(): for item in items`. -/
def allInputItems (ibc : List (String × List Item)) : List Item :=
  (ibc.map Prod.snd).flatten

/-- One step of the `_items_by_id` rebuild: `self._items_by_id[item['id']] = item`. -/
def insertById (m : String → Option Item) (it : Item) : String → Option Item :=
  fun x => if x = it.id then some it else m x

/-- The `_items_by_id` dict rebuilt by flattening `items_by_category`
(lines 78-81 and 117-120); later occurrences of an id overwrite earlier
ones. -/
def buildItemsById (ibc : List (String × List Item)) : String → Option Item :=
  (allInputItems ibc).foldl insertById (fun _ => none)

/-- Read view of the `items_by_category` dict argument (dict key lookup;
an absent key reads as `[]`, matching `.get(name, [])`). -/
def dictLookup (ibc : List (String × List Item)) : String → List Item :=
  fun n => ((ibc.find? (fun p => p.1 == n)).map Prod.snd).getD []

/-- `CatalogCache.initCache(categories, items_by_category)` at time
`now` (lines 74-85). -/
def CatalogCache.initCache (cats : List Category)
    (ibc : List (String × List Item)) (now : ℚ) (c : CatalogCache) :
    CatalogCache :=
  { c with categories := cats, itemsByCategory := dictLookup ibc,
           itemsById := buildItemsById ibc, initialized := true,
           lastUpdate := now }

/-- `CatalogCache.update(categories, items_by_category)` (lines 113-124):
identical to `initialize` except for the log message. -/
def CatalogCache.update (cats : List Category)
    (ibc : List (String × List Item)) (now : ℚ) (c : CatalogCache) :
    CatalogCache :=
  { c with categories := cats, itemsByCategory := dictLookup ibc,
           itemsById := buildItemsById ibc, initialized := true,
           lastUpdate := now }

/-- `CatalogCache.get_categories()`. -/
def CatalogCache.getCategories (c : CatalogCache) : List Category :=
  c.categories

/-- `CatalogCache.get_items_by_category(category_name)`:
`.get(category_name, [])`. -/
def CatalogCache.getItemsByCategory (c : CatalogCache) (n : String) :
    List Item :=
  c.itemsByCategory n

/-- `CatalogCache.get_item(item_id)`: `.get(item_id)`. -/
def CatalogCache.getItem (c : CatalogCache) (s : String) : Option Item :=
  c.itemsById s

/-- One iteration of the removal loop of `update_partial`
(lines 133-142): if the id is cached, filter it out of the bucket named
by the stored item's `category_name` and delete it from `_items_by_id`. -/
def removeItemById (c : CatalogCache) (itemId : String) : CatalogCache :=
  match c.itemsById itemId with
  | some it =>
      { c with
        itemsByCategory := fun n =>
          if n = it.category_name then
            (c.itemsByCategory n).filter (fun j => j.id != itemId)
          else c.itemsByCategory n,
        itemsById := fun x => if x = itemId then none else c.itemsById x }
  | none => c

/-- One iteration of the add/update loop of `update_partial`
(lines 145-157): for a truthy (non-empty) `category_name`, any prior
entry with the same id is filtered out of the NEW category's bucket and
the item appended there; `_items_by_id` is upserted in every case. -/
def upsertItem (c : CatalogCache) (it : Item) : CatalogCache :=
  if it.category_name ≠ "" then
    { c with
      itemsByCategory := fun n =>
        if n = it.category_name then
          (c.itemsByCategory it.category_name).filter
            (fun j => j.id != it.id) ++ [it]
        else c.itemsByCategory n,
      itemsById := fun x => if x = it.id then some it else c.itemsById x }
  else
    { c with itemsById := fun x => if x = it.id then some it else c.itemsById x }

/-- `CatalogCache.update_partial(new_items, removed_item_ids,
updated_categories)` (lines 126-161): optional category-list replacement
(only when the argument is truthy), then the removal loop, then the
add/update loop, then the `_last_update` stamp. The removed ids are
passed as a list fixing the iteration order of the Python set. -/
def CatalogCache.updatePartial (newItems : List Item)
    (removedItemIds : List String) (updatedCategories : List Category)
    (now : ℚ) (c : CatalogCache) : CatalogCache :=
  { (newItems.foldl upsertItem
      (removedItemIds.foldl removeItemById
        (if updatedCategories ≠ [] then
            { c with categories := updatedCategories }
          else c)))
    with lastUpdate := now }

/-! ### Reachability and the index-agreement invariant -/

/-- Well-formed full-replace input, as produced by `sync_catalog_cache`
(app/database/requests.py lines 269-276): distinct bucket keys, every
item listed under its own non-empty `category_name`, and ids naming
items uniquely. -/
def WFInput (ibc : List (String × List Item)) : Prop :=
  (ibc.map Prod.fst).Nodup ∧
  (∀ p ∈ ibc, ∀ it ∈ p.2, it.category_name = p.1 ∧ p.1 ≠ "") ∧
  (∀ i ∈ allInputItems ibc, ∀ j ∈ allInputItems ibc, i.id = j.id → i = j)

/-- Strengthened index invariant used for the induction: bucket items
carry the bucket's name as category and coincide with the by-id entry
for their id; by-id entries are keyed by their id, have a non-empty
category, and sit in their category bucket. -/
def CatalogInv (c : CatalogCache) : Prop :=
  (∀ n, ∀ i ∈ c.itemsByCategory n,
    i.category_name = n ∧ c.itemsById i.id = some i) ∧
  (∀ s i, c.itemsById s = some i →
    i.id = s ∧ i.category_name ≠ "" ∧ i ∈ c.itemsByCategory i.category_name)

/-- Precondition on the `new_items` of an `update_partial` call, checked
against the evolving state: each item has a truthy `category_name` and,
at the moment it is applied, does not change the category of an id
already in the cache. -/
def NewItemsOK : CatalogCache → List Item → Prop
  | _, [] => True
  | c, it :: rest => it.category_name ≠ "" ∧
      (∀ old, c.itemsById it.id = some old →
        old.category_name = it.category_name) ∧
      NewItemsOK (upsertItem c it) rest

/-- Catalog states reachable from a fresh cache by `initialize`/`update`
with well-formed input and by `update_partial` calls whose new items
satisfy `NewItemsOK` (evaluated after the categories replacement and the
removal loop of that call). -/
inductive CatalogReach : CatalogCache → Prop where
  | base : CatalogReach CatalogCache.new
  | fullInit : ∀ {c} (cats : List Category) (ibc : List (String × List Item))
      (now : ℚ), CatalogReach c → WFInput ibc →
      CatalogReach (CatalogCache.initCache cats ibc now c)
  | fullUpdate : ∀ {c} (cats : List Category)
      (ibc : List (String × List Item)) (now : ℚ), CatalogReach c →
      WFInput ibc → CatalogReach (CatalogCache.update cats ibc now c)
  | partialUpdate : ∀ {c} (newItems : List Item)
      (removedItemIds : List String) (updatedCategories : List Category)
      (now : ℚ), CatalogReach c →
      NewItemsOK (removedItemIds.foldl removeItemById
        (if updatedCategories ≠ [] then
            { c with categories := updatedCategories }
          else c)) newItems →
      CatalogReach
        (CatalogCache.updatePartial newItems removedItemIds
          updatedCategories now c)

/-- The two directions of the claimed index-agreement invariant: every
by-id item appears in the bucket named by its `category_name`, and every
bucket item appears in `items_by_id` under its id. -/
def IndexAgree (c : CatalogCache) : Prop :=
  (∀ s i, c.itemsById s = some i → i ∈ c.itemsByCategory i.category_name) ∧
  (∀ n, ∀ i ∈ c.itemsByCategory n, c.itemsById i.id = some i)

/-! ### Concrete demonstration inputs -/

/-- An item with the given id, name and category and neutral remaining
fields, for concrete demonstrations. -/
def mkSimpleItem (theId theName theCat : String) : Item :=
  { id := theId, name := theName, image_url := none,
    category_name := theCat, description := "", price := 0,
    unit := ITEM_UNIT_PCS, item_type_z := none, raspil_type_z := none,
    order_steps := [1], quantity := 0, status := ITEM_STATUS_AVAILABLE }

def itemXA : Item := mkSimpleItem "x" "v1" "A"

def itemXB : Item := mkSimpleItem "x" "v2" "B"

def itemNoCat : Item := mkSimpleItem "y" "w" ""

/-- A cache holding item `x` in category `A`, then `update_partial` with
the same id reassigned to category `B`. -/
def catalogMoveDemo : CatalogCache :=
  CatalogCache.updatePartial [itemXB] [] [] 1
    (CatalogCache.initCache [{ id := "A", name := "A" }]
      [("A", [itemXA])] 0 CatalogCache.new)

/-- `update_partial` inserting an item whose `category_name` is empty. -/
def catalogEmptyCatDemo : CatalogCache :=
  CatalogCache.updatePartial [itemNoCat] [] [] 1 CatalogCache.new

/-- A small well-formed full-replace input. -/
def demoIbc : List (String × List Item) :=
  [("A", [mkSimpleItem "a1" "n1" "A"]), ("B", [mkSimpleItem "b1" "n2" "B"])]

/-- An initialized consent cache holding user 1, last updated at time 0. -/
def privacySyncDemo : PrivacyCache :=
  { accepted := {1}, initialized := true, lastUpdate := 0,
    updateInterval := 300, lastSyncHash := {1} }

/-- An item row: unit `мл`, empty order-step field. -/
def rowC2W : List (Option String) :=
  [some "x1", some "n", none, some "Cat", some "", some "100",
   some "мл", none, none, some "", some "10", some "Доступен"]

/-- The item `rowC2W` parses to. -/
def itC2W : Item :=
  { id := "x1", name := "n", image_url := none, category_name := "Cat",
    description := "", price := 100, unit := ITEM_UNIT_ML,
    item_type_z := none, raspil_type_z := none, order_steps := [],
    quantity := 10, status := ITEM_STATUS_AVAILABLE }

/-- An item row: unit `мл`, order-step field `"5, 2, 2, oops, 10"`. -/
def rowC6 : List (Option String) :=
  [some "x2", some "n2", none, some "Cat", some "", some "50",
   some "мл", none, none, some "5, 2, 2, oops, 10", some "100",
   some "Доступен"]

/-- A piece-unit row with the given id and price cell. -/
def mkPcsRow (theId price : String) : List (Option String) :=
  [some theId, some "n", none, some "Cat", some "", some price,
   some "шт", none, none, some "1", some "5", some "Доступен"]

/-- Ten item rows; the fifth has the unparseable price `"abc"`. -/
def rowsC7 : List (List (Option String)) :=
  [mkPcsRow "i1" "1", mkPcsRow "i2" "2", mkPcsRow "i3" "3",
   mkPcsRow "i4" "4", mkPcsRow "i5" "abc", mkPcsRow "i6" "6",
   mkPcsRow "i7" "7", mkPcsRow "i8" "8", mkPcsRow "i9" "9",
   mkPcsRow "i10" "10"]

/-- Every quantity stored anywhere in the cart store is nonnegative. -/
def CartNonneg (c : CartCache) : Prop :=
  ∀ u d, c.carts u = some d → ∀ i q, d i = some q → 0 ≤ q

lemma cartNonneg_new : CartNonneg CartCache.new := by
  intro u d h
  simp [CartCache.new] at h

lemma cartNonneg_getUserCart (c : CartCache) (u : ℤ) (h : CartNonneg c) :
    CartNonneg (c.getUserCart u).2 := by
  unfold CartCache.getUserCart
  cases hc : c.carts u with
  | some d => exact h
  | none =>
      intro v d hv i q hq
      by_cases hu : v = u
      · subst hu
        simp at hv
        subst hv
        simp at hq
      · simp [hu] at hv
        exact h v d hv i q hq

lemma getUserCart_fst_nonneg (c : CartCache) (u : ℤ) (h : CartNonneg c) :
    ∀ j q, ((c.getUserCart u).1) j = some q → 0 ≤ q := by
  unfold CartCache.getUserCart
  cases hc : c.carts u with
  | some d =>
      intro j q hq
      exact h u d hc j q hq
  | none =>
      intro j q hq
      simp at hq

lemma cartNonneg_removeFromCart (u : ℤ) (i : String) (c : CartCache)
    (h : CartNonneg c) : CartNonneg (CartCache.removeFromCart u i c) := by
  have h2 := cartNonneg_getUserCart c u h
  have h1 := getUserCart_fst_nonneg c u h
  unfold CartCache.removeFromCart
  split
  · intro v d hv j q hq
    by_cases hu : v = u
    · subst hu
      simp at hv
      subst hv
      by_cases hj : j = i
      · simp [hj] at hq
      · simp [hj] at hq
        exact h1 j q hq
    · simp [hu] at hv
      exact h2 v d hv j q hq
  · exact h2

lemma cartNonneg_addToCart (u : ℤ) (i : String) (q : ℚ) (c : CartCache)
    (h : CartNonneg c) : CartNonneg (CartCache.addToCart u i q c) := by
  have h2 := cartNonneg_getUserCart c u h
  have h1 := getUserCart_fst_nonneg c u h
  unfold CartCache.addToCart
  split
  · exact cartNonneg_removeFromCart u i c h
  · rename_i hq0
    intro v d hv j r hr
    by_cases hu : v = u
    · subst hu
      simp at hv
      subst hv
      by_cases hj : j = i
      · simp [hj] at hr
        subst hr
        exact le_of_lt (lt_of_not_le hq0)
      · simp [hj] at hr
        exact h1 j r hr
    · simp [hu] at hv
      exact h2 v d hv j r hr

lemma cartNonneg_applyAddOps (ops : List (ℤ × String × ℚ)) (c : CartCache)
    (h : CartNonneg c) : CartNonneg (applyAddOps ops c) := by
  induction ops generalizing c with
  | nil => exact h
  | cons t rest ih =>
      exact ih _ (cartNonneg_addToCart t.1 t.2.1 t.2.2 c h)

lemma getItemQuantity_nonneg (u : ℤ) (i : String) (c : CartCache)
    (h : CartNonneg c) : 0 ≤ (CartCache.getItemQuantity u i c).1 := by
  have h1 := getUserCart_fst_nonneg c u h
  unfold CartCache.getItemQuantity
  cases hq : ((c.getUserCart u).1) i with
  | some q => simpa [hq] using h1 i q hq
  | none => simp [hq]

/-- C5. Cart quantity non-negativity and zero-equivalence: after any
sequence of `add_to_cart` calls on a fresh cart store,
`get_item_quantity` never returns a negative value; and `add_to_cart`
with a quantity `q ≤ 0` produces exactly the state produced by
`remove_from_cart` on the same user and item. -/
theorem cart_nonneg_and_zero_equiv :
    (∀ (ops : List (ℤ × String × ℚ)) (u : ℤ) (i : String),
      0 ≤ (CartCache.getItemQuantity u i (applyAddOps ops CartCache.new)).1) ∧
    (∀ (u : ℤ) (i : String) (q : ℚ) (c : CartCache), q ≤ 0 →
      CartCache.addToCart u i q c = CartCache.removeFromCart u i c) := by
  constructor
  · intro ops u i
    exact getItemQuantity_nonneg u i _ (cartNonneg_applyAddOps ops _ cartNonneg_new)
  · intro u i q c h
    unfold CartCache.addToCart
    rw [if_pos h]

/-- Witness for C5 at a concrete input: one `add_to_cart` of 5 units, and
the zero-quantity call on the fresh store. -/
theorem cart_nonneg_and_zero_equiv_witness :
    0 ≤ (CartCache.getItemQuantity 1 "a"
          (applyAddOps [(1, "a", 5)] CartCache.new)).1 ∧
    CartCache.addToCart 1 "a" 0 CartCache.new =
      CartCache.removeFromCart 1 "a" CartCache.new :=
  ⟨cart_nonneg_and_zero_equiv.1 [(1, "a", 5)] 1 "a",
   cart_nonneg_and_zero_equiv.2 1 "a" 0 CartCache.new (by norm_num)⟩

/-- C10. Cart reads materialize entries: for a user with no cart entry,
`get_cart` returns the empty mapping, `get_item_quantity` returns 0, and
`remove_from_cart` deletes nothing; each of the three inserts a
persistent empty cart entry for that user and leaves every other user's
entry unchanged. -/
theorem cart_reads_materialize (c : CartCache) (u : ℤ) (i : String)
    (h : c.carts u = none) :
    (CartCache.getCart u c).1 = (fun _ => none) ∧
    (CartCache.getCart u c).2.carts u = some (fun _ => none) ∧
    (∀ v, v ≠ u → (CartCache.getCart u c).2.carts v = c.carts v) ∧
    (CartCache.getItemQuantity u i c).1 = 0 ∧
    (CartCache.getItemQuantity u i c).2.carts u = some (fun _ => none) ∧
    (∀ v, v ≠ u → (CartCache.getItemQuantity u i c).2.carts v = c.carts v) ∧
    (CartCache.removeFromCart u i c).carts u = some (fun _ => none) ∧
    (∀ v, v ≠ u → (CartCache.removeFromCart u i c).carts v = c.carts v) := by
  have hg : c.getUserCart u =
      (fun _ => none,
       ⟨fun v => if v = u then some (fun _ => none) else c.carts v⟩) := by
    simp [CartCache.getUserCart, h]
  refine ⟨?_, ?_, ?_, ?_, ?_, ?_, ?_, ?_⟩
  · simp [CartCache.getCart, hg]
  · simp [CartCache.getCart, hg]
  · intro v hv
    simp [CartCache.getCart, hg, hv]
  · simp [CartCache.getItemQuantity, hg]
  · simp [CartCache.getItemQuantity, hg]
  · intro v hv
    simp [CartCache.getItemQuantity, hg, hv]
  · simp [CartCache.removeFromCart, hg]
  · intro v hv
    simp [CartCache.removeFromCart, hg, hv]

/-- Witness for C10: the fresh cart store has no entry for user 7. -/
theorem cart_reads_materialize_witness :
    (CartCache.getCart 7 CartCache.new).1 = (fun _ => none) ∧
    (CartCache.getCart 7 CartCache.new).2.carts 7 = some (fun _ => none) ∧
    (∀ v, v ≠ 7 →
      (CartCache.getCart 7 CartCache.new).2.carts v = CartCache.new.carts v) ∧
    (CartCache.getItemQuantity 7 "x" CartCache.new).1 = 0 ∧
    (CartCache.getItemQuantity 7 "x" CartCache.new).2.carts 7 =
      some (fun _ => none) ∧
    (∀ v, v ≠ 7 →
      (CartCache.getItemQuantity 7 "x" CartCache.new).2.carts v =
        CartCache.new.carts v) ∧
    (CartCache.removeFromCart 7 "x" CartCache.new).carts 7 =
      some (fun _ => none) ∧
    (∀ v, v ≠ 7 →
      (CartCache.removeFromCart 7 "x" CartCache.new).carts v =
        CartCache.new.carts v) :=
  cart_reads_materialize CartCache.new 7 "x" rfl

/-! ### Set-difference helpers shared by the consent theorems -/

lemma union_sdiff_sdiff_eq (C T : Finset ℤ) : (C ∪ T \ C) \ (C \ T) = T := by
  ext a
  simp only [Finset.mem_sdiff, Finset.mem_union]
  tauto

lemma sdiff_both_empty_iff (S C : Finset ℤ) :
    (S \ C = ∅ ∧ C \ S = ∅) ↔ S = C := by
  constructor
  · rintro ⟨h1, h2⟩
    exact Finset.Subset.antisymm (Finset.sdiff_eq_empty_iff_subset.mp h1)
      (Finset.sdiff_eq_empty_iff_subset.mp h2)
  · rintro rfl
    simp

/-- C3. Consent diff correctness: applying
`PrivacyCache.update_partial(T − C, C − T)` to a cache whose accepted
set is `C` makes the accepted set exactly `T`: afterwards
`is_accepted(u)` holds iff `u ∈ T`. -/
theorem privacy_diff_update_exact (T : Finset ℤ) (now : ℚ) (c : PrivacyCache) :
    (PrivacyCache.updatePartial (T \ c.accepted) (c.accepted \ T) now c).accepted = T ∧
    ∀ u : ℤ, PrivacyCache.isAccepted u
      (PrivacyCache.updatePartial (T \ c.accepted) (c.accepted \ T) now c) = true ↔ u ∈ T := by
  have h2 : (PrivacyCache.updatePartial (T \ c.accepted) (c.accepted \ T) now c).accepted = T :=
    union_sdiff_sdiff_eq c.accepted T
  refine ⟨h2, fun u => ?_⟩
  unfold PrivacyCache.isAccepted
  rw [h2]
  simp

/-- C9. Write-through consent mutations do not refresh staleness:
`add_user` and `remove_user` leave `_last_update`, `_initialized` and
`_update_interval` unchanged, so `needs_update()` gives the same answer
immediately before and after either call. -/
theorem privacy_write_through_frame (c : PrivacyCache) (u : ℤ) (now : ℚ) :
    (PrivacyCache.addUser u c).lastUpdate = c.lastUpdate ∧
    (PrivacyCache.addUser u c).initialized = c.initialized ∧
    (PrivacyCache.addUser u c).updateInterval = c.updateInterval ∧
    PrivacyCache.needsUpdate now (PrivacyCache.addUser u c) =
      PrivacyCache.needsUpdate now c ∧
    (PrivacyCache.removeUser u c).lastUpdate = c.lastUpdate ∧
    (PrivacyCache.removeUser u c).initialized = c.initialized ∧
    (PrivacyCache.removeUser u c).updateInterval = c.updateInterval ∧
    PrivacyCache.needsUpdate now (PrivacyCache.removeUser u c) =
      PrivacyCache.needsUpdate now c :=
  ⟨rfl, rfl, rfl, rfl, rfl, rfl, rfl, rfl⟩

/-- C4 (amended). Consent reconciliation on an initialized cache: the
sync pass computes both set differences against the fetched set `S`,
applies `update_partial` when `S` differs from the cached set, and skips
it otherwise; in both branches the accepted set ends up exactly `S` and
`_last_update` is re-stamped to the current time — in the no-diff branch
the timestamp restamp (requests.py line 210) is the only state change. -/
theorem syncPrivacy_reconciliation (S : Finset ℤ) (now : ℚ) (c : PrivacyCache)
    (h : c.initialized = true) :
    (syncPrivacyCache S now c).accepted = S ∧
    (syncPrivacyCache S now c).initialized = true ∧
    (syncPrivacyCache S now c).lastUpdate = now ∧
    (S = c.accepted → syncPrivacyCache S now c = { c with lastUpdate := now }) ∧
    (S ≠ c.accepted → syncPrivacyCache S now c =
      { PrivacyCache.updatePartial (S \ c.accepted) (c.accepted \ S) now c
        with lastUpdate := now }) := by
  unfold syncPrivacyCache
  rw [if_neg (by simp [h])]
  by_cases hSC : S = c.accepted
  · have h1 : S \ c.accepted = ∅ := by
      rw [hSC]
      simp
    have h2 : c.accepted \ S = ∅ := by
      rw [hSC]
      simp
    rw [if_neg (by simp [h1, h2])]
    exact ⟨hSC ▸ rfl, h, rfl, fun _ => rfl, fun hne => absurd hSC hne⟩
  · have hcond : S \ c.accepted ≠ ∅ ∨ c.accepted \ S ≠ ∅ := by
      by_contra hno
      push_neg at hno
      exact hSC ((sdiff_both_empty_iff S c.accepted).mp ⟨hno.1, hno.2⟩)
    rw [if_pos hcond]
    exact ⟨union_sdiff_sdiff_eq c.accepted S, h, rfl,
      fun he => absurd he hSC, fun _ => rfl⟩

/-- Witness for C4 at a concrete input: synchronizing the cached set
`{1}` against the fetched set `{1, 2}` at time 50. -/
theorem syncPrivacy_reconciliation_witness :
    (syncPrivacyCache {1, 2} 50 privacySyncDemo).accepted = {1, 2} ∧
    (syncPrivacyCache {1, 2} 50 privacySyncDemo).initialized = true ∧
    (syncPrivacyCache {1, 2} 50 privacySyncDemo).lastUpdate = 50 ∧
    (({1, 2} : Finset ℤ) = privacySyncDemo.accepted →
      syncPrivacyCache {1, 2} 50 privacySyncDemo =
        { privacySyncDemo with lastUpdate := 50 }) ∧
    (({1, 2} : Finset ℤ) ≠ privacySyncDemo.accepted →
      syncPrivacyCache {1, 2} 50 privacySyncDemo =
        { PrivacyCache.updatePartial (({1, 2} : Finset ℤ) \ privacySyncDemo.accepted)
            (privacySyncDemo.accepted \ ({1, 2} : Finset ℤ)) 50 privacySyncDemo
          with lastUpdate := 50 }) :=
  syncPrivacy_reconciliation {1, 2} 50 privacySyncDemo rfl

/-- C4 counterexample: the no-diff branch is not a state-preserving
no-op. Synchronizing the initialized cache `{1}` (last updated at 0)
against the identical fetched set `{1}` at time 100 changes the state,
and at time 400 it flips `needs_update()` from `true` to `false`,
because line 210 of requests.py re-stamps `_last_update` even when
`update_partial` is skipped. -/
theorem syncPrivacy_noop_restamps :
    syncPrivacyCache {1} 100 privacySyncDemo ≠ privacySyncDemo ∧
    PrivacyCache.needsUpdate 400 privacySyncDemo = true ∧
    PrivacyCache.needsUpdate 400 (syncPrivacyCache {1} 400 privacySyncDemo) = false := by
  refine ⟨by decide, ?_, ?_⟩
  · show (!privacySyncDemo.initialized ||
      decide ((400 : ℚ) - privacySyncDemo.lastUpdate > privacySyncDemo.updateInterval)) = true
    norm_num [privacySyncDemo]
  · have hs : syncPrivacyCache {1} 400 privacySyncDemo =
        { accepted := {1}, initialized := true, lastUpdate := 400,
          updateInterval := 300, lastSyncHash := {1} } := by decide
    rw [PrivacyCache.needsUpdate, hs]
    norm_num

/-! ### Order-step parsing -/

lemma parseItemRow_order_steps {row : List (Option String)} {it : Item}
    (hp : parseItemRow row = some it) :
    it.order_steps = computeOrderSteps (rowItemUnit row) (rowRawOrderSteps row) := by
  unfold parseItemRow at hp
  split at hp
  · rcases h1 : rowPriceOpt row with _ | p
    · rw [h1] at hp
      simp at hp
    · rcases h2 : rowQtyOpt row with _ | q
      · rw [h1, h2] at hp
        simp at hp
      · rw [h1, h2] at hp
        simp only [Option.some.injEq] at hp
        rw [← hp]
  · simp at hp

/-- C2 (amended). For a 12-cell row whose unit cell is `мл` and whose
order-step cell is `""`, `"abc"` or NULL, a successful parse yields an
item whose `order_steps` is the EMPTY list — `_parse_item_row` applies
no default; the fallback lives in the keyboard layer
(`get_item_cart_keyboard`), which substitutes the hard-coded sequence
`[1, 2, 3, 5, 10]` (not `{1,2,3,5,10,15,20}`) when the parsed list is
empty. -/
theorem ml_order_step_fallback (c0 c1 c2 c3 c4 c5 c7 c8 c10 c11 s9 : Option String)
    (hs : s9 = some "" ∨ s9 = some "abc" ∨ s9 = none) (it : Item)
    (hp : parseItemRow
      [c0, c1, c2, c3, c4, c5, some ITEM_UNIT_ML, c7, c8, s9, c10, c11] = some it) :
    it.order_steps = [] ∧ orderStepsToUse it = [1, 2, 3, 5, 10] := by
  have hu : rowItemUnit
      [c0, c1, c2, c3, c4, c5, some ITEM_UNIT_ML, c7, c8, s9, c10, c11] =
      ITEM_UNIT_ML := rfl
  have hsteps : computeOrderSteps ITEM_UNIT_ML (rowRawOrderSteps
      [c0, c1, c2, c3, c4, c5, some ITEM_UNIT_ML, c7, c8, s9, c10, c11]) = [] := by
    rcases hs with rfl | rfl | rfl <;> rfl
  have ho := parseItemRow_order_steps hp
  rw [hu, hsteps] at ho
  refine ⟨ho, ?_⟩
  unfold orderStepsToUse
  rw [ho]
  simp

/-- Witness for C2 at a concrete input: the ML row with an empty
order-step field parses to `itC2W`, whose step list is empty and whose
keyboard fallback is `[1, 2, 3, 5, 10]`. -/
theorem ml_order_step_fallback_witness :
    itC2W.order_steps = [] ∧ orderStepsToUse itC2W = [1, 2, 3, 5, 10] :=
  ml_order_step_fallback (some "x1") (some "n") none (some "Cat") (some "")
    (some "100") none none (some "10") (some "Доступен") (some "")
    (Or.inl rfl) itC2W (by decide)

/-- C2 counterexample: parsing the ML row with an empty order-step field
produces the empty step list, not the claimed default sequence
`{1, 2, 3, 5, 10, 15, 20}`. -/
theorem ml_order_step_default_refuted :
    (parseItemRow rowC2W).map Item.order_steps = some [] ∧
    (parseItemRow rowC2W).map Item.order_steps ≠
      some [1, 2, 3, 5, 10, 15, 20] := by decide

/-- C6. Order-step normalization: an ML row whose order-step field is
`"5, 2, 2, oops, 10"` parses to `order_steps = [2, 5, 10]` — duplicates
removed, ascending, the unparseable token dropped. -/
theorem ml_order_step_normalization :
    (parseItemRow rowC6).map Item.order_steps = some [2, 5, 10] := by decide

/-- C7. Row-level fault isolation: in a batch of 10 rows whose fifth row
has the unparseable price `"abc"`, the row loop of
`get_all_items_from_gsheets` returns exactly the 9 items parsed from the
other rows: the result equals the parse of the batch with row 5 deleted,
has length 9, row 5 itself parses to `None`, and every other row parses
successfully. -/
theorem batch_fault_isolation :
    getAllItemsFromRows rowsC7 = getAllItemsFromRows (rowsC7.eraseIdx 4) ∧
    (getAllItemsFromRows rowsC7).length = 9 ∧
    parseItemRow (rowsC7.getD 4 []) = none ∧
    (∀ r ∈ rowsC7.eraseIdx 4, (parseItemRow r).isSome = true) := by decide

/-- C8. Idempotent full replace: a second `update` (or `initialize`)
with input identical to the first leaves `get_categories()`,
`get_items_by_category(c)` for every `c`, and `get_item(id)` for every
`id` unchanged. -/
theorem catalog_full_replace_idempotent (cats : List Category)
    (ibc : List (String × List Item)) (now1 now2 : ℚ) (c : CatalogCache) :
    CatalogCache.getCategories
        (CatalogCache.update cats ibc now2 (CatalogCache.update cats ibc now1 c)) =
      CatalogCache.getCategories (CatalogCache.update cats ibc now1 c) ∧
    (∀ n, CatalogCache.getItemsByCategory
        (CatalogCache.update cats ibc now2 (CatalogCache.update cats ibc now1 c)) n =
      CatalogCache.getItemsByCategory (CatalogCache.update cats ibc now1 c) n) ∧
    (∀ s, CatalogCache.getItem
        (CatalogCache.update cats ibc now2 (CatalogCache.update cats ibc now1 c)) s =
      CatalogCache.getItem (CatalogCache.update cats ibc now1 c) s) ∧
    CatalogCache.getCategories
        (CatalogCache.initCache cats ibc now2 (CatalogCache.initCache cats ibc now1 c)) =
      CatalogCache.getCategories (CatalogCache.initCache cats ibc now1 c) ∧
    (∀ n, CatalogCache.getItemsByCategory
        (CatalogCache.initCache cats ibc now2 (CatalogCache.initCache cats ibc now1 c)) n =
      CatalogCache.getItemsByCategory (CatalogCache.initCache cats ibc now1 c) n) ∧
    (∀ s, CatalogCache.getItem
        (CatalogCache.initCache cats ibc now2 (CatalogCache.initCache cats ibc now1 c)) s =
      CatalogCache.getItem (CatalogCache.initCache cats ibc now1 c) s) :=
  ⟨rfl, fun _ => rfl, fun _ => rfl, rfl, fun _ => rfl, fun _ => rfl⟩

lemma dictLookup_mem {ibc : List (String × List Item)} {n : String} {i : Item}
    (h : i ∈ dictLookup ibc n) : ∃ p, p ∈ ibc ∧ p.1 = n ∧ i ∈ p.2 := by
  unfold dictLookup at h
  cases hf : ibc.find? (fun p => p.1 == n) with
  | none =>
      rw [hf] at h
      simp at h
  | some p =>
      rw [hf] at h
      simp at h
      exact ⟨p, List.mem_of_find?_eq_some hf, by simpa using List.find?_some hf, h⟩

lemma dictLookup_self {ibc : List (String × List Item)}
    (hnd : (ibc.map Prod.fst).Nodup) {p : String × List Item} (hp : p ∈ ibc) :
    dictLookup ibc p.1 = p.2 := by
  induction ibc with
  | nil => cases hp
  | cons a rest ih =>
      rcases List.mem_cons.mp hp with rfl | hmem
      · unfold dictLookup
        rw [List.find?_cons_of_pos _ (by simp)]
        rfl
      · have hnc := List.nodup_cons.mp
          (show (a.1 :: rest.map Prod.fst).Nodup from hnd)
        have hne : a.1 ≠ p.1 := by
          intro he
          apply hnc.1
          rw [he]
          exact List.mem_map_of_mem Prod.fst hmem
        unfold dictLookup
        rw [List.find?_cons_of_neg _ (by simp [hne])]
        exact ih hnc.2 hmem

lemma mem_allInputItems {ibc : List (String × List Item)}
    {p : String × List Item} (hp : p ∈ ibc) {i : Item} (hi : i ∈ p.2) :
    i ∈ allInputItems ibc := by
  unfold allInputItems
  rw [List.mem_flatten]
  exact ⟨p.2, List.mem_map_of_mem Prod.snd hp, hi⟩

lemma allInputItems_mem {ibc : List (String × List Item)} {i : Item}
    (hi : i ∈ allInputItems ibc) : ∃ p, p ∈ ibc ∧ i ∈ p.2 := by
  unfold allInputItems at hi
  rw [List.mem_flatten] at hi
  obtain ⟨l, hl, hil⟩ := hi
  obtain ⟨p, hp, rfl⟩ := List.mem_map.mp hl
  exact ⟨p, hp, hil⟩

lemma foldl_insertById_eq_some {L : List Item} {m : String → Option Item}
    {s : String} {it : Item} (h : (L.foldl insertById m) s = some it) :
    (it ∈ L ∧ it.id = s) ∨ m s = some it := by
  induction L generalizing m with
  | nil => exact Or.inr h
  | cons a rest ih =>
      rcases ih h with h1 | h2
      · exact Or.inl ⟨List.mem_cons_of_mem a h1.1, h1.2⟩
      · unfold insertById at h2
        by_cases hs : s = a.id
        · rw [if_pos hs] at h2
          have h3 := Option.some.inj h2
          exact Or.inl ⟨h3 ▸ List.mem_cons_self a rest, h3 ▸ hs.symm⟩
        · rw [if_neg hs] at h2
          exact Or.inr h2

lemma foldl_insertById_persist {L : List Item} {m : String → Option Item}
    {s : String} {it : Item} (hk : ∀ k ∈ L, k.id = s → k = it)
    (h : m s = some it) : (L.foldl insertById m) s = some it := by
  induction L generalizing m with
  | nil => exact h
  | cons a rest ih =>
      refine ih (fun k hk2 => hk k (List.mem_cons_of_mem a hk2)) ?_
      unfold insertById
      by_cases hs : s = a.id
      · rw [if_pos hs, hk a (List.mem_cons_self a rest) hs.symm]
      · rw [if_neg hs]
        exact h

lemma foldl_insertById_self {L : List Item}
    (inj : ∀ i ∈ L, ∀ j ∈ L, i.id = j.id → i = j) {it : Item}
    (hmem : it ∈ L) (m : String → Option Item) :
    (L.foldl insertById m) it.id = some it := by
  induction L generalizing m with
  | nil => cases hmem
  | cons a rest ih =>
      by_cases hr : it ∈ rest
      · exact ih (fun i hi j hj =>
          inj i (List.mem_cons_of_mem a hi) j (List.mem_cons_of_mem a hj)) hr _
      · have hia : it = a := by
          rcases List.mem_cons.mp hmem with h | h
          · exact h
          · exact absurd h hr
        subst hia
        show List.foldl insertById (insertById m it) rest it.id = some it
        apply foldl_insertById_persist
        · intro k hk hkid
          exact inj k (List.mem_cons_of_mem _ hk) it (List.mem_cons_self it rest) hkid
        · unfold insertById
          rw [if_pos rfl]

lemma catalogInv_initCache (cats : List Category)
    (ibc : List (String × List Item)) (now : ℚ) (c : CatalogCache)
    (wf : WFInput ibc) : CatalogInv (CatalogCache.initCache cats ibc now c) := by
  obtain ⟨hnd, hgrp, hinj⟩ := wf
  constructor
  · intro n i hi
    obtain ⟨p, hp, hpn, hip⟩ := dictLookup_mem hi
    obtain ⟨hcat, hne⟩ := hgrp p hp i hip
    refine ⟨by rw [hcat, hpn], ?_⟩
    exact foldl_insertById_self hinj (mem_allInputItems hp hip) _
  · intro s i hs
    rcases foldl_insertById_eq_some hs with ⟨hmem, hid⟩ | hnone
    · obtain ⟨p, hp, hip⟩ := allInputItems_mem hmem
      obtain ⟨hcat, hne⟩ := hgrp p hp i hip
      refine ⟨hid, by rw [hcat]; exact hne, ?_⟩
      show i ∈ dictLookup ibc i.category_name
      rw [hcat, dictLookup_self hnd hp]
      exact hip
    · exact Option.noConfusion hnone

lemma catalogInv_update (cats : List Category)
    (ibc : List (String × List Item)) (now : ℚ) (c : CatalogCache)
    (wf : WFInput ibc) : CatalogInv (CatalogCache.update cats ibc now c) :=
  catalogInv_initCache cats ibc now c wf

lemma catalogInv_removeItemById (c : CatalogCache) (rid : String)
    (h : CatalogInv c) : CatalogInv (removeItemById c rid) := by
  obtain ⟨hA, hB⟩ := h
  unfold removeItemById
  cases hm : c.itemsById rid with
  | none => exact ⟨hA, hB⟩
  | some it =>
      constructor
      · intro n i hi
        dsimp only at hi
        by_cases hn : n = it.category_name
        · rw [if_pos hn] at hi
          obtain ⟨hiold, hneq⟩ := List.mem_filter.mp hi
          have hidne : i.id ≠ rid := by simpa using hneq
          obtain ⟨hcat, hby⟩ := hA n i hiold
          refine ⟨hcat, ?_⟩
          dsimp only
          rw [if_neg hidne]
          exact hby
        · rw [if_neg hn] at hi
          obtain ⟨hcat, hby⟩ := hA n i hi
          refine ⟨hcat, ?_⟩
          dsimp only
          by_cases hid : i.id = rid
          · exfalso
            rw [hid, hm] at hby
            have hit := Option.some.inj hby
            apply hn
            rw [← hcat, ← hit]
          · rw [if_neg hid]
            exact hby
      · intro s i hs
        dsimp only at hs
        by_cases hsr : s = rid
        · rw [if_pos hsr] at hs
          exact Option.noConfusion hs
        · rw [if_neg hsr] at hs
          obtain ⟨hid, hcne, hbucket⟩ := hB s i hs
          refine ⟨hid, hcne, ?_⟩
          dsimp only
          by_cases hc : i.category_name = it.category_name
          · rw [if_pos hc]
            apply List.mem_filter.mpr
            refine ⟨hbucket, ?_⟩
            have : i.id ≠ rid := by
              rw [hid]
              exact hsr
            simpa using this
          · rw [if_neg hc]
            exact hbucket

lemma catalogInv_upsertItem (c : CatalogCache) (it : Item) (h : CatalogInv c)
    (hcat : it.category_name ≠ "")
    (hold : ∀ old, c.itemsById it.id = some old →
      old.category_name = it.category_name) :
    CatalogInv (upsertItem c it) := by
  obtain ⟨hA, hB⟩ := h
  unfold upsertItem
  rw [if_pos hcat]
  constructor
  · intro n i hi
    dsimp only at hi
    by_cases hn : n = it.category_name
    · rw [if_pos hn] at hi
      rcases List.mem_append.mp hi with hfil | hsing
      · obtain ⟨hiold, hneq⟩ := List.mem_filter.mp hfil
        have hidne : i.id ≠ it.id := by simpa using hneq
        obtain ⟨hcat2, hby⟩ := hA it.category_name i hiold
        refine ⟨by rw [hcat2, hn], ?_⟩
        dsimp only
        rw [if_neg hidne]
        exact hby
      · have hieq : i = it := by simpa using hsing
        subst hieq
        refine ⟨hn.symm, ?_⟩
        dsimp only
        rw [if_pos rfl]
    · rw [if_neg hn] at hi
      obtain ⟨hcat2, hby⟩ := hA n i hi
      refine ⟨hcat2, ?_⟩
      dsimp only
      by_cases hid : i.id = it.id
      · exfalso
        rw [hid] at hby
        have h3 := hold i hby
        apply hn
        rw [← hcat2, h3]
      · rw [if_neg hid]
        exact hby
  · intro s i hs
    dsimp only at hs
    by_cases hsi : s = it.id
    · rw [if_pos hsi] at hs
      have h3 := Option.some.inj hs
      subst h3
      refine ⟨hsi.symm, hcat, ?_⟩
      dsimp only
      rw [if_pos rfl]
      exact List.mem_append.mpr (Or.inr (List.mem_singleton.mpr rfl))
    · rw [if_neg hsi] at hs
      obtain ⟨hid, hcne, hbucket⟩ := hB s i hs
      refine ⟨hid, hcne, ?_⟩
      dsimp only
      by_cases hc : i.category_name = it.category_name
      · rw [if_pos hc]
        rw [hc] at hbucket
        apply List.mem_append.mpr
        left
        apply List.mem_filter.mpr
        refine ⟨hbucket, ?_⟩
        have : i.id ≠ it.id := by
          rw [hid]
          exact hsi
        simpa using this
      · rw [if_neg hc]
        exact hbucket

lemma catalogInv_foldl_remove (L : List String) (c : CatalogCache)
    (h : CatalogInv c) : CatalogInv (L.foldl removeItemById c) := by
  induction L generalizing c with
  | nil => exact h
  | cons a rest ih => exact ih _ (catalogInv_removeItemById c a h)

lemma catalogInv_foldl_upsert (L : List Item) (c : CatalogCache)
    (h : CatalogInv c) (hok : NewItemsOK c L) :
    CatalogInv (L.foldl upsertItem c) := by
  induction L generalizing c with
  | nil => exact h
  | cons a rest ih =>
      obtain ⟨h1, h2, h3⟩ := hok
      exact ih (upsertItem c a) (catalogInv_upsertItem c a h h1 h2) h3

lemma catalogInv_updatePartial (newItems : List Item)
    (removedIds : List String) (updCats : List Category) (now : ℚ)
    (c : CatalogCache) (h : CatalogInv c)
    (hok : NewItemsOK (removedIds.foldl removeItemById
      (if updCats ≠ [] then { c with categories := updCats } else c)) newItems) :
    CatalogInv (CatalogCache.updatePartial newItems removedIds updCats now c) := by
  have hbase : CatalogInv
      (if updCats ≠ [] then { c with categories := updCats } else c) := by
    split
    · exact h
    · exact h
  exact catalogInv_foldl_upsert newItems _
    (catalogInv_foldl_remove removedIds _ hbase) hok

/-- C1 (amended). Index agreement invariant: it holds for every catalog
state reachable from a fresh cache by `initialize`/`update` calls with
well-formed input (buckets keyed by each item's own non-empty
`category_name`, ids naming items uniquely) and by `update_partial`
calls in which each new item, at the point it is applied, has a
non-empty `category_name` and does not change the category of an id
already cached: every item in `items_by_id` appears in the
`items_by_category` bucket named by its `category_name`, and every
bucket item appears in `items_by_id` under its id. The restrictions are
forced by the counterexample `catalog_index_agreement_refuted`. -/
theorem catalog_index_agreement (c : CatalogCache) (h : CatalogReach c) :
    IndexAgree c := by
  have hinv : CatalogInv c := by
    induction h with
    | base =>
        constructor
        · intro n i hi
          cases hi
        · intro s i hs
          exact Option.noConfusion hs
    | fullInit cats ibc now hr wf ih => exact catalogInv_initCache cats ibc now _ wf
    | fullUpdate cats ibc now hr wf ih => exact catalogInv_update cats ibc now _ wf
    | partialUpdate newItems removedIds updCats now hr hok ih =>
        exact catalogInv_updatePartial newItems removedIds updCats now _ ih hok
  exact ⟨fun s i hs => (hinv.2 s i hs).2.2, fun n i hi => (hinv.1 n i hi).2⟩

lemma wf_demoIbc : WFInput demoIbc :=
  ⟨by decide, by decide, by decide⟩

/-- Witness for C1 at a concrete input: a two-category initialize from
the fresh cache. -/
theorem catalog_index_agreement_witness :
    IndexAgree (CatalogCache.initCache
      [{ id := "A", name := "A" }, { id := "B", name := "B" }]
      demoIbc 0 CatalogCache.new) :=
  catalog_index_agreement _
    (CatalogReach.fullInit _ _ _ CatalogReach.base wf_demoIbc)

/-- C1 counterexample: the invariant is NOT preserved by arbitrary
`update_partial` calls. Moving item `x` from category `A` to `B` leaves
the stale `A`-bucket copy pointing at an `items_by_id` entry that now
holds a different item (the removal loop filters only the NEW category's
bucket, cache.py lines 151-155), and inserting an item whose
`category_name` is empty puts it in `items_by_id` but in no bucket
(line 148). -/
theorem catalog_index_agreement_refuted :
    ¬ IndexAgree catalogMoveDemo ∧ ¬ IndexAgree catalogEmptyCatDemo := by
  constructor
  · rintro ⟨h1, h2⟩
    have hmem : itemXA ∈ catalogMoveDemo.itemsByCategory "A" := by decide
    have hby := h2 "A" itemXA hmem
    have hbx : catalogMoveDemo.itemsById itemXA.id = some itemXB := by decide
    rw [hbx] at hby
    have h3 := Option.some.inj hby
    exact absurd h3 (by decide)
  · rintro ⟨h1, h2⟩
    have hby : catalogEmptyCatDemo.itemsById "y" = some itemNoCat := by decide
    have hbucket := h1 "y" itemNoCat hby
    have hempty : catalogEmptyCatDemo.itemsByCategory itemNoCat.category_name = [] := by decide
    rw [hempty] at hbucket
    cases hbucket
